import Mathlib

/-!
Verification development for the lazyclaude resource-state reconciliation
engine (src/main.go).  The Go program's filesystem-facing core is shallowly
embedded here: `filepath` operations become pure string functions, the
filesystem becomes an explicit association list from (cleaned, absolute)
path strings to nodes, and every `os.*` call of the source is replaced by a
total function on that state.  Fallible calls return `Option`.
-/

set_option autoImplicit false

namespace LazyClaude

/-! ## Path strings (Go `path/filepath` on Unix) -/

/-- Boolean lexicographic order on character lists (code-point order, which
agrees with Go's byte-wise order on UTF-8 strings). -/
def listLeB : List Char → List Char → Bool
  | [], _ => true
  | _ :: _, [] => false
  | a :: as, b :: bs => if a = b then listLeB as bs else decide (a < b)

/-- Lexicographic order on strings, as used by `os.ReadDir` (sorted by
filename) and by the program's `sort.Slice` comparators. -/
def strLeB (a b : String) : Bool := listLeB a.data b.data

/-- `strings.HasPrefix`. -/
def hasPref (s pre : String) : Bool := pre.data.isPrefixOf s.data

/-- `filepath.IsAbs` on Unix: the path starts with a slash. -/
def isAbs (p : String) : Bool := hasPref p "/"

/-- Split a character list at `'/'` separators (Go `strings.Split` on "/").
The accumulator holds the current component reversed. -/
def splitSlash : List Char → List Char → List (List Char)
  | [], cur => [cur.reverse]
  | c :: rest, cur =>
    if c = '/' then cur.reverse :: splitSlash rest []
    else splitSlash rest (c :: cur)

/-- The stack phase of Go `filepath.Clean`: process components left to
right, dropping `""` and `"."`, resolving `".."` against the stack (the
accumulator is the output so far, reversed). -/
def cleanStack (rooted : Bool) : List String → List String → List String
  | acc, [] => acc
  | acc, c :: rest =>
    if c = "" ∨ c = "." then cleanStack rooted acc rest
    else if c = ".." then
      match acc with
      | [] => cleanStack rooted (if rooted then [] else [".."]) rest
      | top :: accTail =>
        if top = ".." then cleanStack rooted (".." :: top :: accTail) rest
        else cleanStack rooted accTail rest
    else cleanStack rooted (c :: acc) rest

/-- Join components with `"/"`. -/
def intercalSlash : List String → String
  | [] => ""
  | [s] => s
  | s :: rest => s ++ "/" ++ intercalSlash rest

/-- Go `filepath.Clean` (Unix rules). -/
def clean (p : String) : String :=
  let rooted := isAbs p
  let comps := (splitSlash p.data []).map (fun cs => String.mk cs)
  let stack := (cleanStack rooted [] comps).reverse
  if rooted then
    if stack = [] then "/" else "/" ++ intercalSlash stack
  else
    if stack = [] then "." else intercalSlash stack

/-- Go `filepath.Join`: drop empty elements, join with `"/"`, `Clean` the
result (empty input yields `""`). -/
def joinList (elems : List String) : String :=
  let ne := elems.filter (fun e => e ≠ "")
  if ne = [] then "" else clean (intercalSlash ne)

/-- Binary `filepath.Join`. -/
def joinPath (a b : String) : String := joinList [a, b]

/-- Go `filepath.Dir`: everything up to and including the final slash,
cleaned; `"."` when the path holds no slash. -/
def dirPath (p : String) : String :=
  clean (String.mk ((p.data.reverse.dropWhile (fun c => c ≠ '/')).reverse))

/-- Go `filepath.Abs`: clean an absolute path, otherwise join it onto the
working directory (which the embedding carries explicitly). -/
def absPath (cwd p : String) : String :=
  if isAbs p then clean p else joinPath cwd p

/-! ## Filesystem model -/

/-- One filesystem object: regular file, directory, or symbolic link with
its literal target string. -/
inductive FNode where
  | file : FNode
  | dir : FNode
  | symlink (target : String) : FNode
deriving DecidableEq, Inhabited

/-- Filesystem state: the working directory, the entries keyed by cleaned
absolute path, and the set of paths whose removal fails (modelling
permission errors so that `os.Remove` error paths are representable). -/
structure FS where
  cwd : String
  entries : List (String × FNode)
  unremovable : List String
deriving DecidableEq, Inhabited

/-- First entry with the given key (the filesystem has at most one). -/
def lookupEntries : List (String × FNode) → String → Option FNode
  | [], _ => none
  | (q, n) :: rest, p => if q = p then some n else lookupEntries rest p

/-- Drop every entry with the given key. -/
def eraseKey (l : List (String × FNode)) (p : String) : List (String × FNode) :=
  l.filter (fun e => decide (e.1 ≠ p))

/-- `os.Stat`-style resolution of a path to its final node: symlink chains
at the path itself are followed (relative targets resolved against the
link's directory, as the kernel does), with fuel bounding chain length
(the kernel's ELOOP limit). -/
def statNode (fs : FS) : Nat → String → Option FNode
  | 0, _ => none
  | fuel + 1, p =>
    match lookupEntries fs.entries p with
    | some (FNode.symlink t) =>
      statNode fs fuel (absPath fs.cwd (if isAbs t then t else joinPath (dirPath p) t))
    | other => other

/-- `os.Stat(p)` succeeds (the final target exists). -/
def osStatExists (fs : FS) (p : String) : Bool :=
  (statNode fs 40 p).isSome

/-- Key of an immediate child of `dir`. -/
def childKey (dir n : String) : String :=
  (if dir = "/" then "/" else dir ++ "/") ++ n

/-- Names of immediate children of `dir` among the entry keys. -/
def childNames (entries : List (String × FNode)) (dir : String) : List String :=
  let prefData := (if dir = "/" then "/" else dir ++ "/").data
  entries.filterMap (fun e =>
    if prefData.isPrefixOf e.1.data then
      match e.1.data.drop prefData.length with
      | [] => none
      | rest => if rest.contains '/' then none else some (String.mk rest)
    else none)

/-- Keep one occurrence of each element (the last). -/
def dedupKeep : List String → List String
  | [] => []
  | x :: rest => if x ∈ rest then dedupKeep rest else x :: dedupKeep rest

/-- A directory entry as `os.ReadDir` reports it: name and the type bit
(`DirEntry.IsDir` does not follow symlinks). -/
structure DirEnt where
  name : String
  isDir : Bool
deriving DecidableEq, Inhabited

/-- Order on directory entries by name. -/
def dirEntLe (a b : DirEnt) : Prop := strLeB a.name b.name = true

instance : DecidableRel dirEntLe := fun a b => decEq (strLeB a.name b.name) true

/-- `os.ReadDir`: fails unless the path is a directory; otherwise returns
the immediate children sorted by filename. -/
def readDir (fs : FS) (dir : String) : Option (List DirEnt) :=
  match lookupEntries fs.entries dir with
  | some FNode.dir =>
    let names := List.insertionSort (fun a b => strLeB a b = true)
      (dedupKeep (childNames fs.entries dir))
    some (names.map (fun n =>
      { name := n
        isDir := match lookupEntries fs.entries (childKey dir n) with
                 | some FNode.dir => true
                 | _ => false }))
  | _ => none

/-- `os.Remove`: fails on a missing path, a non-empty directory, or a path
marked unremovable; otherwise erases the single entry. -/
def removeOp (fs : FS) (p : String) : Option FS :=
  match lookupEntries fs.entries p with
  | none => none
  | some FNode.dir =>
    if fs.entries.any (fun e => (childKey p "").data.isPrefixOf e.1.data) then none
    else if p ∈ fs.unremovable then none
    else some { fs with entries := eraseKey fs.entries p }
  | some _ =>
    if p ∈ fs.unremovable then none
    else some { fs with entries := eraseKey fs.entries p }

/-- Inner walk of `os.MkdirAll`: extend `cur` by each component in turn,
requiring every existing component to resolve to a directory and creating
the missing ones. -/
def mkdirAllAux (fs : FS) (cur : String) : List String → Option FS
  | [] => some fs
  | c :: rest =>
    let p := childKey cur c
    match statNode fs 40 p with
    | some FNode.dir => mkdirAllAux fs p rest
    | some _ => none
    | none =>
      match lookupEntries fs.entries p with
      | some _ => none
      | none => mkdirAllAux { fs with entries := (p, FNode.dir) :: fs.entries } p rest

/-- `os.MkdirAll`: create the directory and any missing parents; fails when
a component exists but is not (a link to) a directory. -/
def mkdirAll (fs : FS) (p : String) : Option FS :=
  let q := absPath fs.cwd p
  mkdirAllAux fs "/" ((splitSlash q.data []).map (fun cs => String.mk cs) |>.filter (fun c => c ≠ ""))

/-- `os.Symlink oldname newname`: fails when `newname` already exists (even
as a dangling link) or its parent directory is missing; otherwise records
the link with its literal target. -/
def symlinkOp (fs : FS) (oldname newname : String) : Option FS :=
  match lookupEntries fs.entries newname with
  | some _ => none
  | none =>
    if statNode fs 40 (dirPath newname) = some FNode.dir then
      some { fs with entries := (newname, FNode.symlink oldname) :: fs.entries }
    else none

/-! ## Data model (src/main.go:26-38) -/

/-- `Category` (src/main.go:27): a subdirectory of the global store. -/
structure Category where
  name : String
  globalDir : String
  projectDir : String
deriving DecidableEq, Inhabited

/-- `Item` (src/main.go:34): one resource inside a category. -/
structure Item where
  name : String
  isDir : Bool
  globalPath : String
deriving DecidableEq, Inhabited

/-- Order on items by name, as `loadItems` sorts them. -/
def itemLe (a b : Item) : Prop := strLeB a.name b.name = true

instance : DecidableRel itemLe := fun a b => decEq (strLeB a.name b.name) true

/-- Order on categories by name, as `loadCategories` sorts them. -/
def catLe (a b : Category) : Prop := strLeB a.name b.name = true

instance : DecidableRel catLe := fun a b => decEq (strLeB a.name b.name) true

/-! ## Symlink classifier (src/main.go:165-200) -/

/-- `isAppliedSymlink` (src/main.go:166): decide whether `projectPath` is a
symlink to `globalPath`, deleting it when it matches but dangles.  Returns
the filesystem after the best-effort cleanup together with the boolean; the
`os.Remove` error is discarded exactly as in the source. -/
def isAppliedSymlink (fs : FS) (projectPath globalPath : String) : FS × Bool :=
  match lookupEntries fs.entries projectPath with
  | none => (fs, false)
  | some FNode.file => (fs, false)
  | some FNode.dir => (fs, false)
  | some (FNode.symlink target) =>
    let target1 := if isAbs target then target else joinPath (dirPath projectPath) target
    let absTarget := absPath fs.cwd target1
    let absGlobal := absPath fs.cwd globalPath
    if absTarget ≠ absGlobal then (fs, false)
    else if osStatExists fs projectPath then (fs, true)
    else ((removeOp fs projectPath).getD fs, false)

/-! ## Item catalog (src/main.go:128-163) -/

/-- The loop body of `loadItems` (src/main.go:139-155), threading the
filesystem through the per-entry classification. -/
def loadItemsAux (fs : FS) (cat : Category) : List DirEnt → FS × List Item × List Item
  | [] => (fs, [], [])
  | e :: rest =>
    if hasPref e.name "." then loadItemsAux fs cat rest
    else
      let item : Item := { name := e.name, isDir := e.isDir, globalPath := joinPath cat.globalDir e.name }
      let projectPath := joinPath cat.projectDir e.name
      let step := isAppliedSymlink fs projectPath item.globalPath
      let restOut := loadItemsAux step.1 cat rest
      if step.2 then (restOut.1, restOut.2.1, item :: restOut.2.2)
      else (restOut.1, item :: restOut.2.1, restOut.2.2)

/-- `loadItems` (src/main.go:129): partition the non-hidden entries of the
category's global directory into (available, applied), both sorted by name;
an unlistable directory yields two empty lists. -/
def loadItems (fs : FS) (cat : Category) : FS × List Item × List Item :=
  match readDir fs cat.globalDir with
  | none => (fs, [], [])
  | some entries =>
    let out := loadItemsAux fs cat entries
    (out.1, out.2.1.insertionSort itemLe, out.2.2.insertionSort itemLe)

/-! ## Category discovery (src/main.go:102-126) -/

/-- `loadCategories` (src/main.go:103): the non-hidden immediate
subdirectories of the global root, sorted by name, with
`ProjectDir = Join(projectRoot, ".claude", name)`. -/
def loadCategories (fs : FS) (projectRoot globalRoot : String) : Option (List Category) :=
  match readDir fs globalRoot with
  | none => none
  | some entries =>
    let cats := entries.filterMap (fun e =>
      if ¬ e.isDir ∨ hasPref e.name "." then none
      else some { name := e.name
                  globalDir := joinPath globalRoot e.name
                  projectDir := joinList [projectRoot, ".claude", e.name] : Category })
    some (cats.insertionSort catLe)

/-! ## Mutations and refresh (src/main.go:459-511) -/

/-- The engine-visible slice of `App` (src/main.go:41): the discovered
categories, the active tab, the two item lists and the status-bar text. -/
structure AppState where
  categories : List Category
  activeTabIdx : Nat
  availableItems : List Item
  appliedItems : List Item
  statusMsg : String
deriving DecidableEq, Inhabited

/-- The category `a.categories[a.activeTabIdx]`. -/
def activeCat (st : AppState) : Category :=
  st.categories.getD st.activeTabIdx default

/-- The catalog part of `refreshAll` (src/main.go:502): recompute both item
lists from disk for the active category (the remaining calls in
`refreshAll` only repaint widgets). -/
def refreshAllCore (fs : FS) (st : AppState) : FS × AppState :=
  let out := loadItems fs (activeCat st)
  (out.1, { st with availableItems := out.2.1, appliedItems := out.2.2 })

/-- `applySelected` (src/main.go:459): guard the index, `MkdirAll` the
project directory, create the symlink, and refresh; each failing step sets
the status text and returns without refreshing.  `idx` stands for
`availableList.GetCurrentItem()`. -/
def applySelected (fs : FS) (st : AppState) (idx : Int) : FS × AppState :=
  if idx < 0 ∨ (st.availableItems.length : Int) ≤ idx then (fs, st)
  else
    let cat := activeCat st
    let item := st.availableItems.getD idx.toNat default
    match mkdirAll fs cat.projectDir with
    | none => (fs, { st with statusMsg := "error: mkdir" })
    | some fs1 =>
      match symlinkOp fs1 item.globalPath (joinPath cat.projectDir item.name) with
      | none => (fs1, { st with statusMsg := "error: symlink" })
      | some fs2 => refreshAllCore fs2 st

/-- `removeSelected` (src/main.go:482): guard the index, delete the link,
and refresh; a failing `os.Remove` sets the status text and returns without
refreshing.  `idx` stands for `appliedList.GetCurrentItem()`. -/
def removeSelected (fs : FS) (st : AppState) (idx : Int) : FS × AppState :=
  if idx < 0 ∨ (st.appliedItems.length : Int) ≤ idx then (fs, st)
  else
    let cat := activeCat st
    let item := st.appliedItems.getD idx.toNat default
    match removeOp fs (joinPath cat.projectDir item.name) with
    | none => (fs, { st with statusMsg := "error: remove" })
    | some fs1 => refreshAllCore fs1 st

/-! ## Tree renderer (src/main.go:649-679)

`buildTree` writes lines to a `strings.Builder`; the embedding returns the
list of lines.  The Go recursion carries an increasing `depth` and stops
past 3; the embedding carries the remaining allowance `gas = 4 - depth`, so
`gas = 0` exactly when `depth > 3`. -/

/-- The depth-truncation marker line body. -/
def treeMarker : String := "[darkgray]...[-]"

/-- The entry loop of `buildTree` (src/main.go:660-678): `i` is the running
index over all entries (hidden ones included), `total` the entry count, and
`k` the continuation rendering a subdirectory one level deeper. -/
def renderEntries (k : String → String → List String) (dir pre : String) :
    List DirEnt → Nat → Nat → List String
  | [], _, _ => []
  | e :: rest, i, total =>
    if hasPref e.name "." then renderEntries k dir pre rest (i + 1) total
    else
      let isLast := i = total - 1
      let connector := if isLast then "└── " else "├── "
      let childPre := if isLast then pre ++ "    " else pre ++ "│   "
      if e.isDir then
        (pre ++ connector ++ ("[cyan]" ++ e.name ++ "/[-]"))
          :: (k (joinPath dir e.name) childPre ++ renderEntries k dir pre rest (i + 1) total)
      else
        (pre ++ connector ++ e.name) :: renderEntries k dir pre rest (i + 1) total

/-- `buildTree` with the remaining depth allowance as first argument. -/
def buildTreeAux (fs : FS) : Nat → String → String → List String
  | 0 => fun _ pre => [pre ++ treeMarker]
  | gas + 1 => fun dir pre =>
    match readDir fs dir with
    | none => []
    | some entries => renderEntries (buildTreeAux fs gas) dir pre entries 0 entries.length

/-- `buildTree` (src/main.go:649) with the source's signature: emit the
truncation marker when `depth > 3`, otherwise list the directory and
recurse with `depth + 1`. -/
def buildTree (fs : FS) (dir pre : String) (depth : Nat) : List String :=
  buildTreeAux fs (4 - depth) dir pre

/-! ## Observations on rendered tree lines -/

/-- Does the line start with a branch connector?  In a rendering that
started with the empty prefix this picks out exactly the top-level entry
lines: deeper lines start with `"│   "` or `"    "`. -/
def isTopLine (l : String) : Bool :=
  match l.data with
  | [] => false
  | c :: _ => c == '├' || c == '└'

/-- The label `buildTree` prints for an entry. -/
def entryLabel (e : DirEnt) : String :=
  if e.isDir then "[cyan]" ++ e.name ++ "/[-]" else e.name

/-- Reference rendering of one directory level, following the amended C9
statement: hidden entries are dropped, and the connector of a rendered
entry is chosen by its position `i` among all entries (hidden included) —
`└── ` exactly for the final position `total - 1`. -/
def topLines : List DirEnt → Nat → Nat → List String
  | [], _, _ => []
  | e :: rest, i, total =>
    if hasPref e.name "." then topLines rest (i + 1) total
    else ((if i = total - 1 then "└── " else "├── ") ++ entryLabel e) :: topLines rest (i + 1) total

/-! ## Concrete states used to instantiate the theorems -/

/-- A store with category `cat` holding `a`, `b` and hidden `.h`, where `a`
is correctly linked into the project. -/
def fsCatalog : FS :=
  { cwd := "/"
    entries := [("/g", FNode.dir), ("/g/cat", FNode.dir), ("/g/cat/a", FNode.file),
                ("/g/cat/b", FNode.file), ("/g/cat/.h", FNode.file),
                ("/p", FNode.dir), ("/p/.claude", FNode.dir), ("/p/.claude/cat", FNode.dir),
                ("/p/.claude/cat/a", FNode.symlink "/g/cat/a")]
    unremovable := [] }

/-- The category record for `fsCatalog`. -/
def catFix : Category := { name := "cat", globalDir := "/g/cat", projectDir := "/p/.claude/cat" }

/-- A project link whose matching target `/g/cat/a` has been deleted
externally (dangling link), next to an unrelated healthy file. -/
def fsBroken : FS :=
  { cwd := "/"
    entries := [("/p", FNode.dir), ("/p/.claude", FNode.dir), ("/p/.claude/cat", FNode.dir),
                ("/p/.claude/cat/a", FNode.symlink "/g/cat/a"),
                ("/g", FNode.dir), ("/g/cat", FNode.dir), ("/g/cat/b", FNode.file)]
    unremovable := [] }

/-- A link spelled through an alias: `/proj/link → /alias → /real`, so the
link reaches the same file as `/real` under a different spelling. -/
def fsAlias : FS :=
  { cwd := "/"
    entries := [("/proj", FNode.dir), ("/proj/link", FNode.symlink "/alias"),
                ("/alias", FNode.symlink "/real"), ("/real", FNode.file)]
    unremovable := [] }

/-- A directory chain `/r/a/b/c/d/e` five levels deep. -/
def fsChain : FS :=
  { cwd := "/"
    entries := [("/r", FNode.dir), ("/r/a", FNode.dir), ("/r/a/b", FNode.dir),
                ("/r/a/b/c", FNode.dir), ("/r/a/b/c/d", FNode.dir), ("/r/a/b/c/d/e", FNode.file)]
    unremovable := [] }

/-- A directory whose lexicographically last entry is hidden (`"-" < "."`
in byte order, so `-a` sorts before `.h`). -/
def fsHidden : FS :=
  { cwd := "/"
    entries := [("/d", FNode.dir), ("/d/-a", FNode.file), ("/d/.h", FNode.file)]
    unremovable := [] }

/-- A store root with one visible category directory. -/
def fsCats : FS :=
  { cwd := "/"
    entries := [("/g", FNode.dir), ("/g/agents", FNode.dir), ("/p", FNode.dir)]
    unremovable := [] }

/-- Disk state for a failing apply: the in-memory lists were computed
before the link for `a` was deleted externally and before an alien file
appeared at the project path for `b`, so creating the `b` link fails. -/
def fsStale : FS :=
  { cwd := "/"
    entries := [("/g", FNode.dir), ("/g/cat", FNode.dir), ("/g/cat/a", FNode.file),
                ("/g/cat/b", FNode.file), ("/p", FNode.dir), ("/p/.claude", FNode.dir),
                ("/p/.claude/cat", FNode.dir), ("/p/.claude/cat/b", FNode.file)]
    unremovable := [] }

/-- In-memory state paired with `fsStale`: the user is about to apply `b`
while the lists still show `a` as applied. -/
def stStale : AppState :=
  { categories := [catFix], activeTabIdx := 0
    availableItems := [{ name := "b", isDir := false, globalPath := "/g/cat/b" }]
    appliedItems := [{ name := "a", isDir := false, globalPath := "/g/cat/a" }]
    statusMsg := "" }

/-- A store where `MkdirAll` for the project directory fails: an alien
regular file occupies `/p/.claude`. -/
def fsMkdirFail : FS :=
  { cwd := "/"
    entries := [("/g", FNode.dir), ("/g/cat", FNode.dir), ("/g/cat/a", FNode.file),
                ("/p", FNode.dir), ("/p/.claude", FNode.file)]
    unremovable := [] }

/-- A store where applying `a` succeeds after creating the project tree. -/
def fsApply : FS :=
  { cwd := "/"
    entries := [("/g", FNode.dir), ("/g/cat", FNode.dir), ("/g/cat/a", FNode.file), ("/p", FNode.dir)]
    unremovable := [] }

/-- `fsApply` after `MkdirAll("/p/.claude/cat")`. -/
def fsApply1 : FS :=
  { fsApply with entries := ("/p/.claude/cat", FNode.dir) :: ("/p/.claude", FNode.dir) :: fsApply.entries }

/-- `fsApply1` after creating the symlink for `a`. -/
def fsApply2 : FS :=
  { fsApply1 with entries := ("/p/.claude/cat/a", FNode.symlink "/g/cat/a") :: fsApply1.entries }

/-- In-memory state paired with `fsApply`. -/
def stApply : AppState :=
  { categories := [catFix], activeTabIdx := 0
    availableItems := [{ name := "a", isDir := false, globalPath := "/g/cat/a" }]
    appliedItems := [], statusMsg := "" }

/-- A store where removing the applied `a` succeeds. -/
def fsRem : FS :=
  { cwd := "/"
    entries := [("/g", FNode.dir), ("/g/cat", FNode.dir), ("/g/cat/a", FNode.file),
                ("/p", FNode.dir), ("/p/.claude", FNode.dir), ("/p/.claude/cat", FNode.dir),
                ("/p/.claude/cat/a", FNode.symlink "/g/cat/a")]
    unremovable := [] }

/-- `fsRem` after `os.Remove` of the link. -/
def fsRem1 : FS :=
  { fsRem with entries := eraseKey fsRem.entries "/p/.claude/cat/a" }

/-- In-memory state paired with `fsRem`. -/
def stRem : AppState :=
  { categories := [catFix], activeTabIdx := 0
    availableItems := [], statusMsg := ""
    appliedItems := [{ name := "a", isDir := false, globalPath := "/g/cat/a" }] }

/-! ## Order facts about the name comparators -/

theorem listLeB_total : ∀ a b : List Char, listLeB a b = true ∨ listLeB b a = true
  | [], _ => Or.inl rfl
  | _ :: _, [] => Or.inr rfl
  | a :: as, b :: bs => by
    by_cases h : a = b
    · subst h
      rcases listLeB_total as bs with h' | h' <;> simp [listLeB, h']
    · rcases lt_or_gt_of_ne h with hlt | hgt
      · exact Or.inl (by simp [listLeB, h, hlt])
      · exact Or.inr (by simp [listLeB, Ne.symm h, hgt])

theorem listLeB_trans : ∀ {a b c : List Char},
    listLeB a b = true → listLeB b c = true → listLeB a c = true
  | [], _, _, _, _ => rfl
  | _ :: _, [], _, h, _ => by simp [listLeB] at h
  | _ :: _, _ :: _, [], _, h => by simp [listLeB] at h
  | a :: as, b :: bs, c :: cs, h1, h2 => by
    by_cases hab : a = b
    · subst hab
      by_cases hac : a = c
      · subst hac
        simp only [listLeB, if_pos rfl] at h1 h2 ⊢
        exact listLeB_trans h1 h2
      · simp only [listLeB, if_pos rfl] at h1
        simpa [listLeB, hac] using h2
    · by_cases hbc : b = c
      · subst hbc
        simpa [listLeB, hab] using h1
      · simp only [listLeB, if_neg hab, decide_eq_true_eq] at h1
        simp only [listLeB, if_neg hbc, decide_eq_true_eq] at h2
        have hac : a < c := lt_trans h1 h2
        simp [listLeB, ne_of_lt hac, hac]

instance : IsTotal Item itemLe := ⟨fun a b => listLeB_total a.name.data b.name.data⟩

instance : IsTrans Item itemLe := ⟨fun _ _ _ h1 h2 => listLeB_trans h1 h2⟩

instance : IsTotal Category catLe := ⟨fun a b => listLeB_total a.name.data b.name.data⟩

instance : IsTrans Category catLe := ⟨fun _ _ _ h1 h2 => listLeB_trans h1 h2⟩

/-! ## Association-list facts -/

theorem lookupEntries_eraseKey_self (l : List (String × FNode)) (p : String) :
    lookupEntries (eraseKey l p) p = none := by
  induction l with
  | nil => rfl
  | cons e rest ih =>
    by_cases h : e.1 = p
    · simpa [eraseKey, List.filter_cons, h] using ih
    · simpa [eraseKey, List.filter_cons, h, lookupEntries] using ih

theorem lookupEntries_eraseKey_ne (l : List (String × FNode)) (p q : String) (h : q ≠ p) :
    lookupEntries (eraseKey l p) q = lookupEntries l q := by
  induction l with
  | nil => rfl
  | cons e rest ih =>
    by_cases he : e.1 = p
    · have hne : e.1 ≠ q := by
        rw [he]; exact fun hpq => h hpq.symm
      rw [show eraseKey (e :: rest) p = eraseKey rest p by simp [eraseKey, List.filter_cons, he]]
      rw [ih]
      simp [lookupEntries, hne]
    · rw [show eraseKey (e :: rest) p = e :: eraseKey rest p by
        simp [eraseKey, List.filter_cons, he]]
      by_cases hq : e.1 = q
      · simp [lookupEntries, hq]
      · simp [lookupEntries, hq, ih]

/-! ## Claim theorems: the symlink classifier -/

/-- Claim C1: the classifier answers "applied" exactly when the candidate
project path is a symlink whose target, resolved against the link's
directory when relative and made absolute, equals the absolute form of the
expected global path, and following the link reaches an existing target;
in every other case it answers "not applied". -/
theorem isAppliedSymlink_iff (fs : FS) (p g : String) :
    (isAppliedSymlink fs p g).2 = true ↔
      ((∃ t, lookupEntries fs.entries p = some (FNode.symlink t) ∧
          absPath fs.cwd (if isAbs t then t else joinPath (dirPath p) t) = absPath fs.cwd g) ∧
        osStatExists fs p = true) := by
  unfold isAppliedSymlink
  cases h : lookupEntries fs.entries p with
  | none => simp [h]
  | some n =>
    cases n with
    | file => simp [h]
    | dir => simp [h]
    | symlink t =>
      by_cases he : absPath fs.cwd (if isAbs t then t else joinPath (dirPath p) t) = absPath fs.cwd g
      · by_cases hs : osStatExists fs p
        · simp [h, he, hs]
        · simp [h, he, hs]
      · simp [h, he]

/-- Claim C10: path comparison in the classifier is purely lexical — when
the cleaned, absolutised literal target differs from the cleaned expected
global path the classifier answers "not applied" and leaves the state
untouched, even when the two paths reach the same file. -/
theorem isAppliedSymlink_lexical (fs : FS) (p g t : String)
    (hl : lookupEntries fs.entries p = some (FNode.symlink t))
    (hne : absPath fs.cwd (if isAbs t then t else joinPath (dirPath p) t) ≠ absPath fs.cwd g) :
    isAppliedSymlink fs p g = (fs, false) := by
  unfold isAppliedSymlink
  rw [hl]
  simp [hne]

/-- Witness for C10 at `fsAlias`: the link `/proj/link → /alias` reaches
the same file as `/real` (their resolved nodes agree) yet is classified
"not applied" because the spellings differ lexically. -/
theorem isAppliedSymlink_lexical_w :
    isAppliedSymlink fsAlias "/proj/link" "/real" = (fsAlias, false) ∧
      statNode fsAlias 40 "/proj/link" = statNode fsAlias 40 "/real" :=
  ⟨isAppliedSymlink_lexical fsAlias "/proj/link" "/real" "/alias" (by decide) (by decide),
   by decide⟩

/-- Claim C4: a symlink whose target matches the expected global path but
dangles is classified "not applied", and when the deletion succeeds the
stale link is gone afterwards; a failed deletion is swallowed and the
answer is still "not applied". -/
theorem isAppliedSymlink_selfHeal (fs : FS) (p g t : String)
    (hl : lookupEntries fs.entries p = some (FNode.symlink t))
    (heq : absPath fs.cwd (if isAbs t then t else joinPath (dirPath p) t) = absPath fs.cwd g)
    (hbroken : osStatExists fs p = false) :
    (isAppliedSymlink fs p g).2 = false ∧
      (p ∉ fs.unremovable →
        lookupEntries (isAppliedSymlink fs p g).1.entries p = none) := by
  unfold isAppliedSymlink
  rw [hl]
  dsimp only
  rw [if_neg (not_not_intro heq), if_neg (by simp [hbroken])]
  refine ⟨rfl, fun hrem => ?_⟩
  simp only [removeOp, hl]
  rw [if_neg hrem]
  exact lookupEntries_eraseKey_self fs.entries p

/-- Witness for C4 at `fsBroken`: classifying the dangling matching link
answers "not applied" and the link entry is removed. -/
theorem isAppliedSymlink_selfHeal_w :
    (isAppliedSymlink fsBroken "/p/.claude/cat/a" "/g/cat/a").2 = false ∧
      lookupEntries (isAppliedSymlink fsBroken "/p/.claude/cat/a" "/g/cat/a").1.entries
        "/p/.claude/cat/a" = none := by
  have h := isAppliedSymlink_selfHeal fsBroken "/p/.claude/cat/a" "/g/cat/a" "/g/cat/a"
    (by decide) (by decide) (by decide)
  exact ⟨h.1, h.2 (by decide)⟩

/-- Claim C3: classification touches no path other than the candidate, and
when it does change the candidate path the deleted entry was a symlink
whose resolved target equalled the expected global path and whose final
target was missing — a link pointing elsewhere is never deleted. -/
theorem isAppliedSymlink_frame (fs : FS) (p g : String) :
    (∀ q, q ≠ p →
      lookupEntries (isAppliedSymlink fs p g).1.entries q = lookupEntries fs.entries q) ∧
    (lookupEntries (isAppliedSymlink fs p g).1.entries p ≠ lookupEntries fs.entries p →
      (∃ t, lookupEntries fs.entries p = some (FNode.symlink t) ∧
        absPath fs.cwd (if isAbs t then t else joinPath (dirPath p) t) = absPath fs.cwd g) ∧
      osStatExists fs p = false) := by
  unfold isAppliedSymlink
  cases h : lookupEntries fs.entries p with
  | none => exact ⟨fun q _ => rfl, fun hc => absurd h hc⟩
  | some n =>
    cases n with
    | file => exact ⟨fun q _ => rfl, fun hc => absurd h hc⟩
    | dir => exact ⟨fun q _ => rfl, fun hc => absurd h hc⟩
    | symlink t =>
      dsimp only
      by_cases he : absPath fs.cwd (if isAbs t then t else joinPath (dirPath p) t) = absPath fs.cwd g
      · rw [if_neg (not_not_intro he)]
        by_cases hs : osStatExists fs p = true
        · rw [if_pos hs]
          exact ⟨fun q _ => rfl, fun hc => absurd h hc⟩
        · rw [if_neg hs]
          refine ⟨fun q hq => ?_, fun _ => ⟨⟨t, rfl, he⟩, by simpa using hs⟩⟩
          simp only [removeOp, h]
          by_cases hrem : p ∈ fs.unremovable
          · rw [if_pos hrem]
            rfl
          · rw [if_neg hrem]
            exact lookupEntries_eraseKey_ne fs.entries p q hq
      · rw [if_pos he]
        exact ⟨fun q _ => rfl, fun hc => absurd h hc⟩

/-- Witness for C3 at `fsBroken`: the unrelated path `/g/cat/b` is
untouched while the matching dangling link at the candidate path is the
one reclaimed. -/
theorem isAppliedSymlink_frame_w :
    (lookupEntries (isAppliedSymlink fsBroken "/p/.claude/cat/a" "/g/cat/a").1.entries
        "/g/cat/b" = lookupEntries fsBroken.entries "/g/cat/b") ∧
    ((∃ t, lookupEntries fsBroken.entries "/p/.claude/cat/a" = some (FNode.symlink t) ∧
        absPath fsBroken.cwd
          (if isAbs t then t else joinPath (dirPath "/p/.claude/cat/a") t) =
          absPath fsBroken.cwd "/g/cat/a") ∧
      osStatExists fsBroken "/p/.claude/cat/a" = false) :=
  ⟨(isAppliedSymlink_frame fsBroken "/p/.claude/cat/a" "/g/cat/a").1 "/g/cat/b" (by decide),
   (isAppliedSymlink_frame fsBroken "/p/.claude/cat/a" "/g/cat/a").2 (by decide)⟩

/-! ## Claim theorems: catalog, mutations, discovery -/

/-- Claim C7: when a category's global directory cannot be listed, the
catalog yields two empty lists (and leaves the state untouched) instead of
propagating an error. -/
theorem loadItems_unreadable (fs : FS) (cat : Category)
    (h : readDir fs cat.globalDir = none) :
    loadItems fs cat = (fs, [], []) := by
  unfold loadItems
  rw [h]

/-- Witness for C7: a category whose directory is missing from `fsCatalog`. -/
theorem loadItems_unreadable_w :
    readDir fsCatalog "/missing" = none ∧
      loadItems fsCatalog { name := "x", globalDir := "/missing", projectDir := "/p/.claude/x" } =
        (fsCatalog, [], []) :=
  ⟨by decide,
   loadItems_unreadable fsCatalog
     { name := "x", globalDir := "/missing", projectDir := "/p/.claude/x" } (by decide)⟩

/-- Claim C8 (amended): the tree renderer emits the truncation marker when
called past the bound — at recursion depth greater than 3, i.e. beneath
directories four levels below the rendered root — and descends no further;
entries up to four levels below the root are still enumerated. -/
theorem buildTree_truncates (fs : FS) (dir pre : String) (depth : Nat) (h : 3 < depth) :
    buildTree fs dir pre depth = [pre ++ treeMarker] := by
  unfold buildTree
  rw [Nat.sub_eq_zero_of_le h]
  rfl

/-- Witness for C8's amended theorem at depth 4. -/
theorem buildTree_truncates_w :
    3 < 4 ∧ buildTree fsChain "/r/a/b/c/d" "" 4 = ["" ++ treeMarker] :=
  ⟨by decide, buildTree_truncates fsChain "/r/a/b/c/d" "" 4 (by decide)⟩

/-- Counterexample to C8 as stated: in the five-level chain `fsChain`, the
directory `d` four levels below the root is still enumerated, and the
truncation marker appears beneath it (under four levels of indentation),
not at depth 3 (three levels of indentation). -/
theorem buildTree_depth_cex :
    "            └── [cyan]d/[-]" ∈ buildTree fsChain "/r" "" 0 ∧
      "                " ++ treeMarker ∈ buildTree fsChain "/r" "" 0 ∧
      ¬ "            " ++ treeMarker ∈ buildTree fsChain "/r" "" 0 := by
  decide

/-- Claim C5 (amended): for an in-bounds selection, a successful Apply or
Remove mutation is followed by the full catalog refresh recomputing both
lists from disk, while every failing step — directory creation, symlink
creation, or link removal — sets the inline error text and returns early,
leaving the filesystem reached so far and both displayed lists untouched
(no refresh). -/
theorem mutations_refresh (fs : FS) (st : AppState) (idx : Int) :
    (∀ fs1 fs2,
      ¬ (idx < 0 ∨ (st.availableItems.length : Int) ≤ idx) →
      mkdirAll fs (activeCat st).projectDir = some fs1 →
      symlinkOp fs1 (st.availableItems.getD idx.toNat default).globalPath
        (joinPath (activeCat st).projectDir (st.availableItems.getD idx.toNat default).name) =
        some fs2 →
      applySelected fs st idx = refreshAllCore fs2 st) ∧
    (¬ (idx < 0 ∨ (st.availableItems.length : Int) ≤ idx) →
      mkdirAll fs (activeCat st).projectDir = none →
      applySelected fs st idx = (fs, { st with statusMsg := "error: mkdir" })) ∧
    (∀ fs1,
      ¬ (idx < 0 ∨ (st.availableItems.length : Int) ≤ idx) →
      mkdirAll fs (activeCat st).projectDir = some fs1 →
      symlinkOp fs1 (st.availableItems.getD idx.toNat default).globalPath
        (joinPath (activeCat st).projectDir (st.availableItems.getD idx.toNat default).name) =
        none →
      applySelected fs st idx = (fs1, { st with statusMsg := "error: symlink" })) ∧
    (∀ fs1,
      ¬ (idx < 0 ∨ (st.appliedItems.length : Int) ≤ idx) →
      removeOp fs (joinPath (activeCat st).projectDir (st.appliedItems.getD idx.toNat default).name) =
        some fs1 →
      removeSelected fs st idx = refreshAllCore fs1 st) ∧
    (¬ (idx < 0 ∨ (st.appliedItems.length : Int) ≤ idx) →
      removeOp fs (joinPath (activeCat st).projectDir (st.appliedItems.getD idx.toNat default).name) =
        none →
      removeSelected fs st idx = (fs, { st with statusMsg := "error: remove" })) := by
  refine ⟨?_, ?_, ?_, ?_, ?_⟩
  · intro fs1 fs2 hidx h1 h2
    unfold applySelected
    rw [if_neg hidx]
    simp only [h1, h2]
  · intro hidx h1
    unfold applySelected
    rw [if_neg hidx]
    simp only [h1]
  · intro fs1 hidx h1 h2
    unfold applySelected
    rw [if_neg hidx]
    simp only [h1, h2]
  · intro fs1 hidx h1
    unfold removeSelected
    rw [if_neg hidx]
    simp only [h1]
  · intro hidx h1
    unfold removeSelected
    rw [if_neg hidx]
    simp only [h1]

/-- Witness for C5's amended theorem, one instance per conjunct: a
successful apply on `fsApply` and a successful remove on `fsRem` end in
the full refresh; the blocked `MkdirAll` on `fsMkdirFail`, the occupied
link path on `fsStale`, and the missing link on `fsStale` each set the
error text and leave the lists unrefreshed. -/
theorem mutations_refresh_w :
    applySelected fsApply stApply 0 = refreshAllCore fsApply2 stApply ∧
      applySelected fsMkdirFail stApply 0 =
        (fsMkdirFail, { stApply with statusMsg := "error: mkdir" }) ∧
      applySelected fsStale stStale 0 =
        (fsStale, { stStale with statusMsg := "error: symlink" }) ∧
      removeSelected fsRem stRem 0 = refreshAllCore fsRem1 stRem ∧
      removeSelected fsStale stStale 0 =
        (fsStale, { stStale with statusMsg := "error: remove" }) :=
  ⟨(mutations_refresh fsApply stApply 0).1 fsApply1 fsApply2 (by decide) (by decide) (by decide),
   (mutations_refresh fsMkdirFail stApply 0).2.1 (by decide) (by decide),
   (mutations_refresh fsStale stStale 0).2.2.1 fsStale (by decide) (by decide) (by decide),
   (mutations_refresh fsRem stRem 0).2.2.2.1 fsRem1 (by decide) (by decide),
   (mutations_refresh fsStale stStale 0).2.2.2.2 (by decide) (by decide)⟩

/-- Counterexample to C5 as stated: on `fsStale` the symlink creation for
`b` fails (an alien file occupies the project path), `applySelected`
returns without refreshing, and the displayed applied list still shows `a`
although recomputing from disk yields an empty applied list. -/
theorem mutations_refresh_cex :
    (applySelected fsStale stStale 0).2.appliedItems ≠
      (loadItems (applySelected fsStale stStale 0).1
        (activeCat (applySelected fsStale stStale 0).2)).2.2 := by
  decide

/-! ## Category discovery: C6 -/

theorem filterMap_cats_names (projectRoot globalRoot : String) (es : List DirEnt) :
    (es.filterMap (fun e =>
      if ¬ e.isDir ∨ hasPref e.name "." then none
      else some { name := e.name, globalDir := joinPath globalRoot e.name
                  projectDir := joinList [projectRoot, ".claude", e.name] : Category })).map
        Category.name =
      (es.filter (fun e => e.isDir && !(hasPref e.name "."))).map DirEnt.name := by
  induction es with
  | nil => rfl
  | cons e rest ih =>
    by_cases h1 : e.isDir = true
    · by_cases h2 : hasPref e.name "." = true
      · rw [List.filterMap_cons_none (by rw [if_pos (Or.inr h2)]),
          List.filter_cons, if_neg (by simp [h1, h2])]
        exact ih
      · rw [List.filterMap_cons_some (by rw [if_neg (by simp [h1, h2])]),
          List.filter_cons, if_pos (by simp [h1, h2]), List.map_cons, List.map_cons, ih]
    · rw [List.filterMap_cons_none (by rw [if_pos (Or.inl (by simpa using h1))]),
        List.filter_cons, if_neg (by simp [h1])]
      exact ih

/-- Claim C6 (amended): discovery fails when the store root cannot be
listed, and otherwise returns exactly the non-hidden immediate
subdirectories, sorted by name, with `globalDir = globalRoot/<name>` and
`projectDir = projectRoot/.claude/<name>` (the source inserts the
`.claude` component between the project root and the category name). -/
theorem loadCategories_spec (fs : FS) (projectRoot globalRoot : String) :
    (readDir fs globalRoot = none → loadCategories fs projectRoot globalRoot = none) ∧
    (∀ es, readDir fs globalRoot = some es →
      ∃ cats, loadCategories fs projectRoot globalRoot = some cats ∧
        List.Pairwise catLe cats ∧
        List.Perm (cats.map Category.name)
          ((es.filter (fun e => e.isDir && !(hasPref e.name "."))).map DirEnt.name) ∧
        ∀ c ∈ cats, c.globalDir = joinPath globalRoot c.name ∧
          c.projectDir = joinList [projectRoot, ".claude", c.name]) := by
  constructor
  · intro h
    unfold loadCategories
    rw [h]
  · intro es h
    unfold loadCategories
    rw [h]
    refine ⟨_, rfl, ?_, ?_, ?_⟩
    · exact List.sorted_insertionSort catLe _
    · refine ((List.perm_insertionSort catLe _).map Category.name).trans ?_
      rw [filterMap_cats_names]
    · intro c hc
      rw [List.mem_insertionSort] at hc
      obtain ⟨e, he, hfe⟩ := List.mem_filterMap.mp hc
      by_cases hcond : ¬ e.isDir = true ∨ hasPref e.name "." = true
      · rw [if_pos hcond] at hfe
        cases hfe
      · rw [if_neg hcond] at hfe
        cases hfe
        exact ⟨rfl, rfl⟩

/-- Witness for C6's amended theorem on `fsCats`. -/
theorem loadCategories_spec_w :
    ∃ cats, loadCategories fsCats "/p" "/g" = some cats ∧
      List.Pairwise catLe cats ∧
      List.Perm (cats.map Category.name)
        ((([{ name := "agents", isDir := true }] : List DirEnt).filter
          (fun e => e.isDir && !(hasPref e.name "."))).map DirEnt.name) ∧
      ∀ c ∈ cats, c.globalDir = joinPath "/g" c.name ∧
        c.projectDir = joinList ["/p", ".claude", c.name] :=
  (loadCategories_spec fsCats "/p" "/g").2 [{ name := "agents", isDir := true }] (by decide)

/-- Counterexample to C6 as stated: discovery builds
`projectDir = projectRoot/.claude/<name>`, not `projectRoot/<name>`. -/
theorem loadCategories_projectDir_cex :
    loadCategories fsCats "/p" "/g" =
      some [{ name := "agents", globalDir := "/g/agents", projectDir := "/p/.claude/agents" }] ∧
      ¬ ({ name := "agents", globalDir := "/g/agents"
           projectDir := "/p/.claude/agents" : Category }).projectDir =
          joinPath "/p" "agents" := by
  decide

/-! ## Item catalog: C2 -/

theorem mem_dedupKeep {l : List String} {x : String} (h : x ∈ dedupKeep l) : x ∈ l := by
  induction l with
  | nil => simp [dedupKeep] at h
  | cons a rest ih =>
    by_cases ha : a ∈ rest
    · rw [show dedupKeep (a :: rest) = dedupKeep rest by simp [dedupKeep, ha]] at h
      exact List.mem_cons_of_mem _ (ih h)
    · rw [show dedupKeep (a :: rest) = a :: dedupKeep rest by simp [dedupKeep, ha]] at h
      rcases List.mem_cons.mp h with h1 | h2
      · exact h1 ▸ List.mem_cons_self _ _
      · exact List.mem_cons_of_mem _ (ih h2)

theorem dedupKeep_nodup : ∀ l : List String, (dedupKeep l).Nodup
  | [] => List.nodup_nil
  | a :: rest => by
    by_cases ha : a ∈ rest
    · rw [show dedupKeep (a :: rest) = dedupKeep rest by simp [dedupKeep, ha]]
      exact dedupKeep_nodup rest
    · rw [show dedupKeep (a :: rest) = a :: dedupKeep rest by simp [dedupKeep, ha]]
      exact List.nodup_cons.mpr ⟨fun hmem => ha (mem_dedupKeep hmem), dedupKeep_nodup rest⟩

theorem readDir_names_nodup (fs : FS) (dir : String) (es : List DirEnt)
    (h : readDir fs dir = some es) : (es.map DirEnt.name).Nodup := by
  unfold readDir at h
  cases hl : lookupEntries fs.entries dir with
  | none => rw [hl] at h; cases h
  | some n =>
    cases n with
    | file => rw [hl] at h; cases h
    | symlink t => rw [hl] at h; cases h
    | dir =>
      rw [hl] at h
      dsimp only at h
      injection h with h
      subst h
      rw [List.map_map]
      rw [show (DirEnt.name ∘ fun n =>
        ({ name := n,
           isDir := match lookupEntries fs.entries (childKey dir n) with
                    | some FNode.dir => true
                    | _ => false } : DirEnt)) = fun n : String => n from rfl]
      rw [List.map_id']
      exact ((List.perm_insertionSort _ _).nodup_iff).mpr (dedupKeep_nodup _)

theorem loadItemsAux_cons_hidden (fs : FS) (cat : Category) (e : DirEnt) (rest : List DirEnt)
    (hh : hasPref e.name "." = true) :
    loadItemsAux fs cat (e :: rest) = loadItemsAux fs cat rest := by
  simp [loadItemsAux, hh]

theorem loadItemsAux_cons_applied (fs : FS) (cat : Category) (e : DirEnt) (rest : List DirEnt)
    (hh : hasPref e.name "." = false)
    (hA : (isAppliedSymlink fs (joinPath cat.projectDir e.name) (joinPath cat.globalDir e.name)).2 =
      true) :
    loadItemsAux fs cat (e :: rest) =
      ((loadItemsAux (isAppliedSymlink fs (joinPath cat.projectDir e.name)
          (joinPath cat.globalDir e.name)).1 cat rest).1,
       (loadItemsAux (isAppliedSymlink fs (joinPath cat.projectDir e.name)
          (joinPath cat.globalDir e.name)).1 cat rest).2.1,
       { name := e.name, isDir := e.isDir, globalPath := joinPath cat.globalDir e.name } ::
         (loadItemsAux (isAppliedSymlink fs (joinPath cat.projectDir e.name)
            (joinPath cat.globalDir e.name)).1 cat rest).2.2) := by
  simp [loadItemsAux, hh, hA]

theorem loadItemsAux_cons_avail (fs : FS) (cat : Category) (e : DirEnt) (rest : List DirEnt)
    (hh : hasPref e.name "." = false)
    (hA : (isAppliedSymlink fs (joinPath cat.projectDir e.name) (joinPath cat.globalDir e.name)).2 =
      false) :
    loadItemsAux fs cat (e :: rest) =
      ((loadItemsAux (isAppliedSymlink fs (joinPath cat.projectDir e.name)
          (joinPath cat.globalDir e.name)).1 cat rest).1,
       { name := e.name, isDir := e.isDir, globalPath := joinPath cat.globalDir e.name } ::
         (loadItemsAux (isAppliedSymlink fs (joinPath cat.projectDir e.name)
            (joinPath cat.globalDir e.name)).1 cat rest).2.1,
       (loadItemsAux (isAppliedSymlink fs (joinPath cat.projectDir e.name)
          (joinPath cat.globalDir e.name)).1 cat rest).2.2) := by
  simp [loadItemsAux, hh, hA]

theorem loadItemsAux_names (cat : Category) :
    ∀ (es : List DirEnt) (fs : FS) (x : String),
      (x ∈ (loadItemsAux fs cat es).2.1.map Item.name → x ∈ es.map DirEnt.name) ∧
      (x ∈ (loadItemsAux fs cat es).2.2.map Item.name → x ∈ es.map DirEnt.name) := by
  intro es
  induction es with
  | nil =>
    intro fs x
    constructor <;> intro h <;> simp [loadItemsAux] at h
  | cons e rest ih =>
    intro fs x
    by_cases hh : hasPref e.name "." = true
    · rw [loadItemsAux_cons_hidden fs cat e rest hh]
      exact ⟨fun h => List.mem_cons_of_mem _ ((ih fs x).1 h),
             fun h => List.mem_cons_of_mem _ ((ih fs x).2 h)⟩
    · have hh' : hasPref e.name "." = false := by simpa using hh
      cases hA : (isAppliedSymlink fs (joinPath cat.projectDir e.name)
          (joinPath cat.globalDir e.name)).2 with
      | true =>
        rw [loadItemsAux_cons_applied fs cat e rest hh' hA]
        refine ⟨fun h => List.mem_cons_of_mem _ ((ih _ x).1 h), fun h => ?_⟩
        rcases List.mem_cons.mp h with h1 | h2
        · exact h1 ▸ List.mem_cons_self _ _
        · exact List.mem_cons_of_mem _ ((ih _ x).2 h2)
      | false =>
        rw [loadItemsAux_cons_avail fs cat e rest hh' hA]
        refine ⟨fun h => ?_, fun h => List.mem_cons_of_mem _ ((ih _ x).2 h)⟩
        rcases List.mem_cons.mp h with h1 | h2
        · exact h1 ▸ List.mem_cons_self _ _
        · exact List.mem_cons_of_mem _ ((ih _ x).1 h2)

theorem loadItemsAux_partition (cat : Category) :
    ∀ (es : List DirEnt) (fs : FS),
      (es.map DirEnt.name).Nodup →
      ∀ e ∈ es, hasPref e.name "." = false →
        (e.name ∈ (loadItemsAux fs cat es).2.1.map Item.name ∧
          e.name ∉ (loadItemsAux fs cat es).2.2.map Item.name) ∨
        (e.name ∉ (loadItemsAux fs cat es).2.1.map Item.name ∧
          e.name ∈ (loadItemsAux fs cat es).2.2.map Item.name) := by
  intro es
  induction es with
  | nil => intro fs _ e he; exact absurd he (List.not_mem_nil e)
  | cons e0 rest ih =>
    intro fs hnd e he hhe
    have hnd0 := List.nodup_cons.mp hnd
    by_cases hh : hasPref e0.name "." = true
    · have hmem : e ∈ rest := by
        rcases List.mem_cons.mp he with h1 | h1
        · rw [h1, hh] at hhe; cases hhe
        · exact h1
      rw [loadItemsAux_cons_hidden fs cat e0 rest hh]
      exact ih fs hnd0.2 e hmem hhe
    · have hh' : hasPref e0.name "." = false := by simpa using hh
      rcases List.mem_cons.mp he with h1 | h1
      · subst h1
        cases hA : (isAppliedSymlink fs (joinPath cat.projectDir e.name)
            (joinPath cat.globalDir e.name)).2 with
        | true =>
          rw [loadItemsAux_cons_applied fs cat e rest hh' hA]
          refine Or.inr ⟨fun hx => ?_, List.mem_cons_self _ _⟩
          exact hnd0.1 ((loadItemsAux_names cat rest _ e.name).1 hx)
        | false =>
          rw [loadItemsAux_cons_avail fs cat e rest hh' hA]
          refine Or.inl ⟨List.mem_cons_self _ _, fun hx => ?_⟩
          exact hnd0.1 ((loadItemsAux_names cat rest _ e.name).2 hx)
      · have hne : e.name ≠ e0.name := by
          intro hx
          exact hnd0.1 (hx ▸ List.mem_map_of_mem DirEnt.name h1)
        cases hA : (isAppliedSymlink fs (joinPath cat.projectDir e0.name)
            (joinPath cat.globalDir e0.name)).2 with
        | true =>
          rw [loadItemsAux_cons_applied fs cat e0 rest hh' hA]
          rcases ih _ hnd0.2 e h1 hhe with ⟨ha, hb⟩ | ⟨ha, hb⟩
          · exact Or.inl ⟨ha, fun hx => hb (by
              rcases List.mem_cons.mp hx with h2 | h2
              · exact absurd h2 hne
              · exact h2)⟩
          · exact Or.inr ⟨ha, List.mem_cons_of_mem _ hb⟩
        | false =>
          rw [loadItemsAux_cons_avail fs cat e0 rest hh' hA]
          rcases ih _ hnd0.2 e h1 hhe with ⟨ha, hb⟩ | ⟨ha, hb⟩
          · exact Or.inl ⟨List.mem_cons_of_mem _ ha, hb⟩
          · exact Or.inr ⟨fun hx => ha (by
              rcases List.mem_cons.mp hx with h2 | h2
              · exact absurd h2 hne
              · exact h2), hb⟩

/-- Claim C2: after a refresh, each non-hidden entry of the category's
global directory appears in exactly one of the two lists, and both lists
are sorted lexicographically by name. -/
theorem loadItems_partition (fs : FS) (cat : Category) :
    List.Sorted itemLe (loadItems fs cat).2.1 ∧
    List.Sorted itemLe (loadItems fs cat).2.2 ∧
    ∀ es, readDir fs cat.globalDir = some es →
      ∀ e ∈ es, hasPref e.name "." = false →
        (e.name ∈ (loadItems fs cat).2.1.map Item.name ∧
          e.name ∉ (loadItems fs cat).2.2.map Item.name) ∨
        (e.name ∉ (loadItems fs cat).2.1.map Item.name ∧
          e.name ∈ (loadItems fs cat).2.2.map Item.name) := by
  cases hrd : readDir fs cat.globalDir with
  | none =>
    rw [show loadItems fs cat = (fs, [], []) by unfold loadItems; rw [hrd]]
    refine ⟨List.sorted_nil, List.sorted_nil, ?_⟩
    intro es h
    cases h
  | some entries =>
    rw [show loadItems fs cat =
        ((loadItemsAux fs cat entries).1,
         (loadItemsAux fs cat entries).2.1.insertionSort itemLe,
         (loadItemsAux fs cat entries).2.2.insertionSort itemLe) by
      unfold loadItems; rw [hrd]]
    refine ⟨List.sorted_insertionSort itemLe _, List.sorted_insertionSort itemLe _, ?_⟩
    intro es h e he hhe
    injection h with h
    subst h
    have hnd := readDir_names_nodup fs cat.globalDir entries hrd
    have hm : ∀ (l : List Item) (x : String),
        x ∈ (l.insertionSort itemLe).map Item.name ↔ x ∈ l.map Item.name :=
      fun l x => ((List.perm_insertionSort itemLe l).map Item.name).mem_iff
    rcases loadItemsAux_partition cat entries fs hnd e he hhe with ⟨ha, hb⟩ | ⟨ha, hb⟩
    · exact Or.inl ⟨(hm _ _).mpr ha, fun hx => hb ((hm _ _).mp hx)⟩
    · exact Or.inr ⟨fun hx => ha ((hm _ _).mp hx), (hm _ _).mpr hb⟩

/-- Witness for C2 on `fsCatalog`: both lists sorted, and the non-hidden
entry `a` lands in exactly one list (the applied one). -/
theorem loadItems_partition_w :
    List.Sorted itemLe (loadItems fsCatalog catFix).2.1 ∧
    List.Sorted itemLe (loadItems fsCatalog catFix).2.2 ∧
    (("a" ∈ (loadItems fsCatalog catFix).2.1.map Item.name ∧
      "a" ∉ (loadItems fsCatalog catFix).2.2.map Item.name) ∨
     ("a" ∉ (loadItems fsCatalog catFix).2.1.map Item.name ∧
      "a" ∈ (loadItems fsCatalog catFix).2.2.map Item.name)) :=
  ⟨(loadItems_partition fsCatalog catFix).1,
   (loadItems_partition fsCatalog catFix).2.1,
   (loadItems_partition fsCatalog catFix).2.2
     [{ name := ".h", isDir := false }, { name := "a", isDir := false },
      { name := "b", isDir := false }] (by decide)
     { name := "a", isDir := false } (by decide) (by decide)⟩

/-! ## Tree renderer connectors: C9 -/

theorem renderEntries_cons_hidden (k : String → String → List String) (dir pre : String)
    (e : DirEnt) (rest : List DirEnt) (i total : Nat) (hh : hasPref e.name "." = true) :
    renderEntries k dir pre (e :: rest) i total = renderEntries k dir pre rest (i + 1) total := by
  simp [renderEntries, hh]

theorem renderEntries_cons_file (k : String → String → List String) (dir pre : String)
    (e : DirEnt) (rest : List DirEnt) (i total : Nat)
    (hh : hasPref e.name "." = false) (hd : e.isDir = false) :
    renderEntries k dir pre (e :: rest) i total =
      (pre ++ (if i = total - 1 then "└── " else "├── ") ++ e.name)
        :: renderEntries k dir pre rest (i + 1) total := by
  simp only [renderEntries, hh, Bool.false_eq_true, if_false, hd]

theorem renderEntries_cons_dir (k : String → String → List String) (dir pre : String)
    (e : DirEnt) (rest : List DirEnt) (i total : Nat)
    (hh : hasPref e.name "." = false) (hd : e.isDir = true) :
    renderEntries k dir pre (e :: rest) i total =
      (pre ++ (if i = total - 1 then "└── " else "├── ") ++ ("[cyan]" ++ e.name ++ "/[-]"))
        :: (k (joinPath dir e.name) (if i = total - 1 then pre ++ "    " else pre ++ "│   ")
            ++ renderEntries k dir pre rest (i + 1) total) := by
  simp only [renderEntries, hh, Bool.false_eq_true, if_false, hd, if_true]

theorem renderEntries_startData (k : String → String → List String) (dir : String)
    (hk : ∀ d cp l, l ∈ k d cp → ∃ r, l.data = cp.data ++ r) :
    ∀ (es : List DirEnt) (pre : String) (i total : Nat) (l : String),
      l ∈ renderEntries k dir pre es i total → ∃ r, l.data = pre.data ++ r := by
  intro es
  induction es with
  | nil =>
    intro pre i total l h
    simp [renderEntries] at h
  | cons e rest ih =>
    intro pre i total l h
    by_cases hh : hasPref e.name "." = true
    · rw [renderEntries_cons_hidden k dir pre e rest i total hh] at h
      exact ih pre (i + 1) total l h
    · have hh' : hasPref e.name "." = false := by simpa using hh
      cases hd : e.isDir with
      | false =>
        rw [renderEntries_cons_file k dir pre e rest i total hh' hd] at h
        rcases List.mem_cons.mp h with h1 | h2
        · exact ⟨(if i = total - 1 then "└── " else "├── ").data ++ e.name.data, by
            rw [h1, String.data_append, String.data_append, List.append_assoc]⟩
        · exact ih pre (i + 1) total l h2
      | true =>
        rw [renderEntries_cons_dir k dir pre e rest i total hh' hd] at h
        rcases List.mem_cons.mp h with h1 | h2
        · exact ⟨(if i = total - 1 then "└── " else "├── ").data ++
              ("[cyan]" ++ e.name ++ "/[-]").data, by
            rw [h1, String.data_append, String.data_append, List.append_assoc]⟩
        · rcases List.mem_append.mp h2 with h3 | h4
          · obtain ⟨r, hr⟩ := hk _ _ l h3
            by_cases hil : i = total - 1
            · rw [if_pos hil, String.data_append] at hr
              exact ⟨"    ".data ++ r, by rw [hr, List.append_assoc]⟩
            · rw [if_neg hil, String.data_append] at hr
              exact ⟨"│   ".data ++ r, by rw [hr, List.append_assoc]⟩
          · exact ih pre (i + 1) total l h4

theorem buildTreeAux_startData (fs : FS) :
    ∀ (gas : Nat) (dir pre l : String),
      l ∈ buildTreeAux fs gas dir pre → ∃ r, l.data = pre.data ++ r
  | 0, dir, pre, l => by
    intro h
    have h1 : l = pre ++ treeMarker := List.mem_singleton.mp h
    exact ⟨treeMarker.data, by rw [h1, String.data_append]⟩
  | gas + 1, dir, pre, l => by
    intro h
    cases hrd : readDir fs dir with
    | none =>
      rw [show buildTreeAux fs (gas + 1) dir pre = [] by
        rw [show buildTreeAux fs (gas + 1) dir pre = match readDir fs dir with
          | none => []
          | some entries => renderEntries (buildTreeAux fs gas) dir pre entries 0 entries.length
          from rfl, hrd]] at h
      cases h
    | some entries =>
      rw [show buildTreeAux fs (gas + 1) dir pre =
          renderEntries (buildTreeAux fs gas) dir pre entries 0 entries.length by
        rw [show buildTreeAux fs (gas + 1) dir pre = match readDir fs dir with
          | none => []
          | some entries => renderEntries (buildTreeAux fs gas) dir pre entries 0 entries.length
          from rfl, hrd]] at h
      exact renderEntries_startData (buildTreeAux fs gas) dir
        (fun d cp l' hl' => buildTreeAux_startData fs gas d cp l' hl')
        entries pre 0 entries.length l h

theorem isTopLine_connector (c s : String) (hc : c = "└── " ∨ c = "├── ") :
    isTopLine ("" ++ c ++ s) = true := by
  rcases hc with h | h <;> subst h <;>
    · unfold isTopLine
      rw [show ("" ++ _ ++ s).data = _ from by
        rw [String.data_append, String.data_append]]
      rfl

theorem isTopLine_nested (cp l : String) (r : List Char)
    (hcp : cp = "" ++ "    " ∨ cp = "" ++ "│   ")
    (hl : l.data = cp.data ++ r) : isTopLine l = false := by
  rcases hcp with h | h <;> subst h <;>
    · unfold isTopLine
      rw [hl]
      rfl

theorem renderEntries_filter_top (k : String → String → List String) (dir : String)
    (hk : ∀ d cp l, l ∈ k d cp → ∃ r, l.data = cp.data ++ r) :
    ∀ (es : List DirEnt) (i total : Nat),
      (renderEntries k dir "" es i total).filter isTopLine = topLines es i total := by
  intro es
  induction es with
  | nil => intro i total; rfl
  | cons e rest ih =>
    intro i total
    by_cases hh : hasPref e.name "." = true
    · rw [renderEntries_cons_hidden k dir "" e rest i total hh,
        show topLines (e :: rest) i total = topLines rest (i + 1) total by simp [topLines, hh]]
      exact ih (i + 1) total
    · have hh' : hasPref e.name "." = false := by simpa using hh
      have hconn : (if i = total - 1 then "└── " else "├── ") = "└── " ∨
          (if i = total - 1 then "└── " else "├── ") = "├── " := by
        by_cases hil : i = total - 1
        · rw [if_pos hil]; exact Or.inl rfl
        · rw [if_neg hil]; exact Or.inr rfl
      rw [show topLines (e :: rest) i total =
          ((if i = total - 1 then "└── " else "├── ") ++ entryLabel e)
            :: topLines rest (i + 1) total by simp [topLines, hh]]
      cases hd : e.isDir with
      | false =>
        rw [renderEntries_cons_file k dir "" e rest i total hh' hd, List.filter_cons,
          if_pos (isTopLine_connector _ e.name hconn), ih (i + 1) total]
        rw [show entryLabel e = e.name by unfold entryLabel; rw [hd]; rfl]
        rfl
      | true =>
        rw [renderEntries_cons_dir k dir "" e rest i total hh' hd, List.filter_cons,
          if_pos (isTopLine_connector _ ("[cyan]" ++ e.name ++ "/[-]") hconn),
          List.filter_append, ih (i + 1) total]
        rw [show (k (joinPath dir e.name)
            (if i = total - 1 then "" ++ "    " else "" ++ "│   ")).filter isTopLine = [] by
          rw [List.filter_eq_nil_iff]
          intro l hl
          obtain ⟨r, hr⟩ := hk _ _ l hl
          have hf : isTopLine l = false := by
            by_cases hil : i = total - 1
            · exact isTopLine_nested _ l r (Or.inl rfl) (by rwa [if_pos hil] at hr)
            · exact isTopLine_nested _ l r (Or.inr rfl) (by rwa [if_neg hil] at hr)
          simp [hf]]
        rw [List.nil_append]
        rw [show entryLabel e = "[cyan]" ++ e.name ++ "/[-]" by unfold entryLabel; rw [hd]; rfl]
        rfl

/-- Claim C9 (amended): rendering a directory with the empty prefix, the
top-level lines (those starting with a branch connector) are exactly the
non-hidden entries in order, and the connector of each rendered entry is
chosen by its position among all entries including hidden ones — `└── `
exactly for the entry in the final position of the listing.  Consequently,
when the directory's last entry is hidden, no rendered sibling carries
`└── `. -/
theorem buildTree_topLevel (fs : FS) (dir : String) (es : List DirEnt)
    (h : readDir fs dir = some es) :
    (buildTree fs dir "" 0).filter isTopLine = topLines es 0 es.length := by
  rw [show buildTree fs dir "" 0 = renderEntries (buildTreeAux fs 3) dir "" es 0 es.length by
    unfold buildTree
    rw [show buildTreeAux fs (4 - 0) dir "" = match readDir fs dir with
      | none => []
      | some entries => renderEntries (buildTreeAux fs 3) dir "" entries 0 entries.length
      from rfl, h]]
  exact renderEntries_filter_top (buildTreeAux fs 3) dir
    (fun d cp l hl => buildTreeAux_startData fs 3 d cp l hl) es 0 es.length

/-- Witness for C9's amended theorem on `fsCatalog`'s category directory:
`.h` is excluded, `a` gets `├── ` and `b`, the final entry, gets `└── `. -/
theorem buildTree_topLevel_w :
    (buildTree fsCatalog "/g/cat" "" 0).filter isTopLine =
      topLines [{ name := ".h", isDir := false }, { name := "a", isDir := false },
        { name := "b", isDir := false }] 0 3 :=
  buildTree_topLevel fsCatalog "/g/cat"
    [{ name := ".h", isDir := false }, { name := "a", isDir := false },
     { name := "b", isDir := false }] (by decide)

/-- Counterexample to C9 as stated: in `fsHidden` the single rendered
sibling `-a` is the last rendered one, yet it carries `├── ` because the
hidden entry `.h` occupies the directory's final position; no rendered line
carries `└── `. -/
theorem buildTree_lastConnector_cex :
    buildTree fsHidden "/d" "" 0 = ["├── -a"] ∧
      ¬ "└── -a" ∈ buildTree fsHidden "/d" "" 0 := by
  decide

end LazyClaude
